import Mathlib

set_option maxRecDepth 2048

/-!
Verification of the robots.txt validator (`src/validator.ts`).

The validator is embedded shallowly: JavaScript strings are Lean `String`s
(with code-unit level modelling where lone UTF-16 surrogates matter),
line scanning becomes explicit state passing, and the host primitives the
validator calls (`Blob` size, `TextEncoder`/`TextDecoder`, `parseFloat`,
`new URL`) are modelled at the precision the validator observes.
-/

namespace RobotsTxt

inductive Severity where
  | error
  | warning
deriving DecidableEq, Repr

/-- `ValidationError` from validator.ts: a finding with a line number
(0 = whole-file scope), message and severity. -/
structure ValidationError where
  line : Nat
  message : String
  severity : Severity
deriving DecidableEq, Repr

/-- `ValidationResult` from validator.ts. -/
structure ValidationResult where
  isValid : Bool
  errors : List ValidationError
  warnings : List ValidationError
deriving DecidableEq, Repr

/-- ECMAScript whitespace (WhiteSpace ∪ LineTerminator), as trimmed by
`String.prototype.trim`. -/
def isJsWhitespace (c : Char) : Bool :=
  ([0x09, 0x0A, 0x0B, 0x0C, 0x0D, 0x20, 0xA0, 0x1680,
    0x2000, 0x2001, 0x2002, 0x2003, 0x2004, 0x2005, 0x2006, 0x2007,
    0x2008, 0x2009, 0x200A, 0x2028, 0x2029, 0x202F, 0x205F, 0x3000,
    0xFEFF] : List Nat).contains c.toNat

def dropTrailing (p : Char → Bool) (l : List Char) : List Char :=
  (l.reverse.dropWhile p).reverse

/-- Model of `String.prototype.trim` on the character list of a string. -/
def trimList (l : List Char) : List Char :=
  dropTrailing isJsWhitespace (l.dropWhile isJsWhitespace)

/-- Model of `content.split('\n')` on the character list of a string. -/
def splitNl : List Char → List (List Char)
  | [] => [[]]
  | c :: rest =>
    if c = '\n' then [] :: splitNl rest
    else
      match splitNl rest with
      | [] => [[c]]
      | l :: ls => (c :: l) :: ls

/-- JavaScript truthiness of the `currentUserAgent : string | null` field:
`!currentUserAgent` is true when it is `null` or the empty string. -/
def jsFalsy : Option String → Bool
  | none => true
  | some s => s == ""

/-! ### The findings emitted by validator.ts, with their exact messages -/

def emptyFileError : ValidationError :=
  ⟨0, "Robots.txt file is empty", .error⟩

def sizeWarning : ValidationError :=
  ⟨0, "File exceeds 500 KiB - crawlers may stop parsing beyond this limit (RFC 9309)", .warning⟩

def utf8Warning : ValidationError :=
  ⟨0, "File should be UTF-8 encoded (RFC 9309)", .warning⟩

def colonError (n : Nat) : ValidationError :=
  ⟨n, "Invalid format: directive must contain colon separator", .error⟩

def nonStandardWarning (n : Nat) (name : String) : ValidationError :=
  ⟨n, "\x27" ++ name ++ "\x27 is not part of RFC 9309 standard (may be ignored by some crawlers)", .warning⟩

def unknownWarning (n : Nat) (name : String) : ValidationError :=
  ⟨n, "Unknown directive \x27" ++ name ++ "\x27 (not in RFC 9309)", .warning⟩

def mustFollowError (n : Nat) (name : String) : ValidationError :=
  ⟨n, "\x27" ++ name ++ "\x27 must follow a user-agent directive (RFC 9309 Section 2.2.1)", .error⟩

def userAgentEmptyError (n : Nat) : ValidationError :=
  ⟨n, "user-agent value cannot be empty", .error⟩

def userAgentTokenWarning (n : Nat) : ValidationError :=
  ⟨n, "user-agent should contain only letters, numbers, hyphens, underscores, or * (RFC 9309)", .warning⟩

def pathStartWarning (n : Nat) : ValidationError :=
  ⟨n, "Path should start with / for proper matching (RFC 9309)", .warning⟩

def nonAsciiWarning (n : Nat) : ValidationError :=
  ⟨n, "Non-ASCII characters should be percent-encoded (RFC 9309 Section 2.2.2)", .warning⟩

def dollarWarning (n : Nat) : ValidationError :=
  ⟨n, "$ should only appear at the end of the path (RFC 9309)", .warning⟩

def sitemapEmptyError (n : Nat) : ValidationError :=
  ⟨n, "sitemap URL cannot be empty", .error⟩

def sitemapProtocolError (n : Nat) : ValidationError :=
  ⟨n, "sitemap must use HTTP or HTTPS protocol", .error⟩

def sitemapInvalidError (n : Nat) : ValidationError :=
  ⟨n, "sitemap must be a valid absolute URL", .error⟩

def crawlDelayNumberWarning (n : Nat) : ValidationError :=
  ⟨n, "crawl-delay value should be a number", .warning⟩

def crawlDelayNegativeWarning (n : Nat) : ValidationError :=
  ⟨n, "crawl-delay should not be negative", .warning⟩

def noUserAgentError : ValidationError :=
  ⟨0, "File must contain at least one user-agent directive (RFC 9309)", .error⟩

/-! ### UTF-16 / UTF-8 model for `isValidUtf8` and the `Blob` byte size

JavaScript strings are sequences of 16-bit code units, possibly with lone
surrogates.  `TextEncoder.encode` converts the string to a Unicode scalar
sequence, replacing unpaired surrogates with U+FFFD, then UTF-8 encodes it;
`TextDecoder('utf-8', {fatal: true}).decode` rejects malformed UTF-8. -/

def isLeadSurrogate (u : Nat) : Bool := decide (0xD800 ≤ u ∧ u ≤ 0xDBFF)

def isTrailSurrogate (u : Nat) : Bool := decide (0xDC00 ≤ u ∧ u ≤ 0xDFFF)

def combineSurrogates (u v : Nat) : Nat :=
  0x10000 + (u - 0xD800) * 0x400 + (v - 0xDC00)

/-- Conversion of a UTF-16 code-unit sequence to Unicode scalar values,
replacing unpaired surrogates with U+FFFD (the USVString conversion
performed by `TextEncoder`). -/
def toScalars : List Nat → List Nat
  | [] => []
  | [u] => if isLeadSurrogate u || isTrailSurrogate u then [0xFFFD] else [u]
  | u :: v :: rest =>
    if isLeadSurrogate u then
      if isTrailSurrogate v then combineSurrogates u v :: toScalars rest
      else 0xFFFD :: toScalars (v :: rest)
    else if isTrailSurrogate u then 0xFFFD :: toScalars (v :: rest)
    else u :: toScalars (v :: rest)

/-- UTF-8 encoding of one Unicode scalar value. -/
def utf8EncodeChar (c : Nat) : List Nat :=
  if c < 0x80 then [c]
  else if c < 0x800 then [0xC0 + c / 0x40, 0x80 + c % 0x40]
  else if c < 0x10000 then
    [0xE0 + c / 0x1000, 0x80 + c / 0x40 % 0x40, 0x80 + c % 0x40]
  else
    [0xF0 + c / 0x40000, 0x80 + c / 0x1000 % 0x40, 0x80 + c / 0x40 % 0x40,
      0x80 + c % 0x40]

def utf8Encode (l : List Nat) : List Nat :=
  (l.map utf8EncodeChar).flatten

/-- Strict UTF-8 well-formedness, stated as the RFC 3629 byte-sequence
table (first byte determines the admissible ranges of the continuation
bytes; overlong forms, surrogates and scalars above U+10FFFF are rejected).
`TextDecoder('utf-8', \x7bfatal: true\x7d).decode` succeeds exactly on
well-formed input, so this models whether the decode call in `isValidUtf8`
throws. -/
def utf8ValidAux : List (Nat × Nat) → List Nat → Bool
  | expect, [] => expect.isEmpty
  | [], b :: rest =>
    if b ≤ 0x7F then utf8ValidAux [] rest
    else if 0xC2 ≤ b ∧ b ≤ 0xDF then utf8ValidAux [(0x80, 0xBF)] rest
    else if b = 0xE0 then utf8ValidAux [(0xA0, 0xBF), (0x80, 0xBF)] rest
    else if 0xE1 ≤ b ∧ b ≤ 0xEC then utf8ValidAux [(0x80, 0xBF), (0x80, 0xBF)] rest
    else if b = 0xED then utf8ValidAux [(0x80, 0x9F), (0x80, 0xBF)] rest
    else if 0xEE ≤ b ∧ b ≤ 0xEF then utf8ValidAux [(0x80, 0xBF), (0x80, 0xBF)] rest
    else if b = 0xF0 then utf8ValidAux [(0x90, 0xBF), (0x80, 0xBF), (0x80, 0xBF)] rest
    else if 0xF1 ≤ b ∧ b ≤ 0xF3 then
      utf8ValidAux [(0x80, 0xBF), (0x80, 0xBF), (0x80, 0xBF)] rest
    else if b = 0xF4 then utf8ValidAux [(0x80, 0x8F), (0x80, 0xBF), (0x80, 0xBF)] rest
    else false
  | (lo, hi) :: expect, b :: rest =>
    if lo ≤ b ∧ b ≤ hi then utf8ValidAux expect rest else false

def utf8Valid (bs : List Nat) : Bool := utf8ValidAux [] bs

/-- The UTF-16 code units backing a Lean `String` viewed as a JavaScript
string (Lean chars are Unicode scalars, so pairing is always well formed). -/
def charUnits (c : Char) : List Nat :=
  if c.toNat < 0x10000 then [c.toNat]
  else [0xD800 + (c.toNat - 0x10000) / 0x400, 0xDC00 + (c.toNat - 0x10000) % 0x400]

def jsCodeUnits (s : String) : List Nat :=
  (s.data.map charUnits).flatten

/-- `isValidUtf8` from validator.ts on an arbitrary UTF-16 code-unit
sequence: encode with `TextEncoder` (USVString conversion then UTF-8) and
decode with a fatal `TextDecoder`; true iff decoding succeeds. -/
def isValidUtf8Units (us : List Nat) : Bool :=
  utf8Valid (utf8Encode (toScalars us))

def isValidUtf8Str (s : String) : Bool :=
  isValidUtf8Units (jsCodeUnits s)

/-- `new Blob([content]).size`: the UTF-8 byte length of the string (with
unpaired surrogates replaced, as `Blob` does). -/
def utf8ByteSize (s : String) : Nat :=
  (utf8Encode (toScalars (jsCodeUnits s))).length

/-! ### Host models: `parseFloat` and `new URL` -/

def infinityChars : List Char := ['I', 'n', 'f', 'i', 'n', 'i', 't', 'y']

/-- Models the host `parseFloat` at the precision the validator observes:
whether a number is parsed from a prefix of the string, and the sign of its
exact decimal value (`some (-1)`, `some 0`, `some 1`; `none` for NaN).
IEEE-754 rounding preserves this sign except for exponents far outside any
practical crawl-delay. -/
def parseFloatSgn (s : String) : Option Int :=
  let l := s.data.dropWhile isJsWhitespace
  let neg : Bool := l.head? == some '-'
  let l1 := if l.head? == some '-' || l.head? == some '+' then l.tail else l
  if infinityChars.isPrefixOf l1 then some (if neg then -1 else 1)
  else
    let intd := l1.takeWhile Char.isDigit
    let rest := l1.drop intd.length
    let fracd :=
      match rest with
      | '.' :: r => r.takeWhile Char.isDigit
      | _ => []
    if intd = [] ∧ fracd = [] then none
    else if (intd ++ fracd).all (· == '0') then some 0
    else some (if neg then -1 else 1)

def trimC0 (l : List Char) : List Char :=
  dropTrailing (fun c => decide (c.toNat ≤ 0x20))
    (l.dropWhile (fun c => decide (c.toNat ≤ 0x20)))

def schemeChar (c : Char) : Bool :=
  c.isAlpha || c.isDigit || c == '+' || c == '-' || c == '.'

def specialSchemes : List String := ["ftp", "http", "https", "ws", "wss"]

/-- Models the host WHATWG `new URL(value)` constructor at the precision the
validator observes: whether parsing succeeds and the resulting `protocol`.
Leading/trailing C0-control-or-space characters and all tab/newline
characters are stripped; a scheme `[a-zA-Z][a-zA-Z0-9+.-]*` followed by `:`
is required; the special network schemes additionally require a non-empty
host. -/
def isTabOrNl (c : Char) : Bool :=
  c.toNat = 9 || c.toNat = 10 || c.toNat = 13

def urlProtocol (input : String) : Option String :=
  let l := (trimC0 input.data).filter (fun c => !isTabOrNl c)
  match l with
  | [] => none
  | c :: rest =>
    if c.isAlpha then
      let schemeTail := rest.takeWhile schemeChar
      match rest.drop schemeTail.length with
      | ':' :: tail =>
        let scheme := String.mk ((c :: schemeTail).map Char.toLower)
        if specialSchemes.contains scheme then
          let afterSlashes := tail.dropWhile (· == '/')
          let host := afterSlashes.takeWhile (fun ch => !(ch == '/' || ch == '?' || ch == '#'))
          if host = [] then none else some (scheme ++ ":")
        else some (scheme ++ ":")
      | _ => none
    else none

/-! ### Per-directive checks (validator.ts lines 178-322) -/

def uaTokenChar (c : Char) : Bool :=
  c.isAlpha || c.isDigit || c == '_' || c == '-' || c == '*'

/-- The regular-expression test `/^[a-zA-Z0-9_\-*]+$/.test(value)`. -/
def uaTokenTest (s : String) : Bool :=
  !s.data.isEmpty && s.data.all uaTokenChar

/-- `validateUserAgent`: returns the (errors, warnings) pushed for the line. -/
def validateUserAgent (value : String) (n : Nat) :
    List ValidationError × List ValidationError :=
  if value = "" then ([userAgentEmptyError n], [])
  else if uaTokenTest value then ([], [])
  else ([], [userAgentTokenWarning n])

/-- `validatePath`: pushes only warnings; returns them in emission order. -/
def validatePath (directive : String) (value : String) (n : Nat) :
    List ValidationError :=
  if directive = "disallow" ∧ value = "" then []
  else
    (if value ≠ "" ∧ value.data.head? ≠ some '/' then [pathStartWarning n] else [])
      ++ (if value.data.any (fun c => !decide (0x21 ≤ c.toNat ∧ c.toNat ≤ 0x7E)) then
            [nonAsciiWarning n]
          else [])
      ++ (if value.data.contains '$' ∧ value.data.getLast? ≠ some '$' then
            [dollarWarning n]
          else [])

/-- `validateSitemap`: pushes only errors; returns them. -/
def validateSitemap (value : String) (n : Nat) : List ValidationError :=
  if value = "" then [sitemapEmptyError n]
  else
    match urlProtocol value with
    | some p => if p = "http:" ∨ p = "https:" then [] else [sitemapProtocolError n]
    | none => [sitemapInvalidError n]

/-- `validateCrawlDelay`: pushes only warnings; returns them. -/
def validateCrawlDelay (value : String) (n : Nat) : List ValidationError :=
  match parseFloatSgn value with
  | none => [crawlDelayNumberWarning n]
  | some s => if s < 0 then [crawlDelayNegativeWarning n] else []

/-! ### The line scan (validator.ts lines 81-156) -/

/-- The result of parsing one raw line (validator.ts lines 83-106):
blank/comment, missing colon separator, or a directive
(name lowercased and trimmed, value trimmed; split at the first colon). -/
inductive LineParse where
  | blank
  | noColon
  | dir (name : String) (value : String)
deriving DecidableEq, Repr

def parseLine (line : List Char) : LineParse :=
  let t := trimList line
  if t = [] then .blank
  else if t.head? = some '#' then .blank
  else if !t.contains ':' then .noColon
  else
    let before := t.takeWhile (fun c => c != ':')
    let afterC := (t.dropWhile (fun c => c != ':')).tail
    .dir (String.mk ((trimList before).map Char.toLower)) (String.mk (trimList afterC))

def standardDirectives : List String :=
  ["user-agent", "disallow", "allow", "sitemap"]

def commonNonStandardDirectives : List String :=
  ["crawl-delay", "request-rate", "visit-time", "host", "clean-param"]

/-- The directive-classification warning (validator.ts lines 109-123). -/
def classificationWarns (name : String) (n : Nat) : List ValidationError :=
  if standardDirectives.contains name then []
  else if commonNonStandardDirectives.contains name then [nonStandardWarning n name]
  else [unknownWarning n name]

/-- The findings and state update produced by one line of the scan. -/
structure LineOut where
  errs : List ValidationError
  warns : List ValidationError
  cua : Option String
  setUA : Bool
deriving DecidableEq, Repr

/-- One iteration of the `lines.forEach` body (validator.ts lines 81-156),
given the current `currentUserAgent` and the 1-based line number. -/
def processLine (cua : Option String) (n : Nat) (line : List Char) : LineOut :=
  match parseLine line with
  | .blank => ⟨[], [], cua, false⟩
  | .noColon => ⟨[colonError n], [], cua, false⟩
  | .dir name value =>
    if name = "user-agent" then
      let r := validateUserAgent value n
      ⟨r.1, classificationWarns name n ++ r.2, some value, true⟩
    else if name = "disallow" ∨ name = "allow" then
      if jsFalsy cua then ⟨[mustFollowError n name], classificationWarns name n, cua, false⟩
      else ⟨[], classificationWarns name n ++ validatePath name value n, cua, false⟩
    else if name = "sitemap" then
      ⟨validateSitemap value n, classificationWarns name n, cua, false⟩
    else if name = "crawl-delay" then
      ⟨[], classificationWarns name n ++ validateCrawlDelay value n, cua, false⟩
    else ⟨[], classificationWarns name n, cua, false⟩

structure ScanOut where
  errs : List ValidationError
  warns : List ValidationError
  cua : Option String
  hasUA : Bool
deriving DecidableEq, Repr

/-- The whole `lines.forEach` loop, threading the scan state. -/
def scanLines (cua : Option String) (hasUA : Bool) (n : Nat) :
    List (List Char) → ScanOut
  | [] => ⟨[], [], cua, hasUA⟩
  | l :: ls =>
    let o := processLine cua n l
    let rest := scanLines o.cua (hasUA || o.setUA) (n + 1) ls
    ⟨o.errs ++ rest.errs, o.warns ++ rest.warns, rest.cua, rest.hasUA⟩

/-- `RobotsTxtValidator.validate` (validator.ts lines 41-173). -/
def validate (content : String) : ValidationResult :=
  if content.data = [] ∨ trimList content.data = [] then
    ⟨false, [emptyFileError], []⟩
  else
    let sizeWarns := if 500 * 1024 < utf8ByteSize content then [sizeWarning] else []
    let utfWarns := if isValidUtf8Str content then [] else [utf8Warning]
    let o := scanLines none false 1 (splitNl content.data)
    let errors := o.errs ++ (if o.hasUA then [] else [noUserAgentError])
    ⟨errors.isEmpty, errors, sizeWarns ++ utfWarns ++ o.warns⟩

/-! ### Report formatting (validator.ts lines 351-374) -/

def findingLine (e : ValidationError) : String :=
  "  Line " ++ toString e.line ++ ": " ++ e.message ++ "\n"

def successMessage : String := "✓ Valid robots.txt (RFC 9309 compliant)"

/-- `formatValidationResults`. -/
def formatValidationResults (result : ValidationResult) : String :=
  if result.isValid ∧ result.warnings.length = 0 then successMessage
  else
    let out1 :=
      if 0 < result.errors.length then
        "Errors:\n" ++ String.join (result.errors.map findingLine)
      else ""
    if 0 < result.warnings.length then
      (if out1 ≠ "" then out1 ++ "\n" else out1)
        ++ "Warnings:\n" ++ String.join (result.warnings.map findingLine)
    else out1

/-! ### Specification-side definitions used by the theorems -/

/-- The scan-state update of one line: the value of a `user-agent` directive
replaces `currentUserAgent`, anything else leaves it unchanged. -/
def updUA (cua : Option String) (l : List Char) : Option String :=
  match parseLine l with
  | .dir name value => if name = "user-agent" then some value else cua
  | _ => cua

/-- The `currentUserAgent` value after a sequence of lines: the value of the
last `user-agent` directive among them, if any. -/
def lastUAOr (cua : Option String) : List (List Char) → Option String
  | [] => cua
  | l :: ls => lastUAOr (updUA cua l) ls

def isScalarValue (c : Nat) : Prop :=
  c < 0x110000 ∧ ¬ (0xD800 ≤ c ∧ c ≤ 0xDFFF)

/-- The output format of `formatValidationResults` as §4.3 of the design
describes it: the success line when valid and warning-free, otherwise an
"Errors:" section iff there are errors, a separating blank line iff both
sections are present, and a "Warnings:" section iff there are warnings. -/
def formatResultsSpec (r : ValidationResult) : String :=
  if r.isValid ∧ r.warnings = [] then successMessage
  else
    (if r.errors ≠ [] then "Errors:\n" ++ String.join (r.errors.map findingLine)
     else "")
      ++ (if r.errors ≠ [] ∧ r.warnings ≠ [] then "\n" else "")
      ++ (if r.warnings ≠ [] then
            "Warnings:\n" ++ String.join (r.warnings.map findingLine)
          else "")

/-! ### Helper lemmas: line numbers and severities of per-line findings -/

theorem trimList_eq_nil_of_all (l : List Char) (h : l.all isJsWhitespace = true) :
    trimList l = [] := by
  unfold trimList dropTrailing
  have hd : l.dropWhile isJsWhitespace = [] := by
    rw [List.dropWhile_eq_nil_iff]
    intro x hx
    exact List.all_eq_true.mp h x hx
  rw [hd]
  rfl

theorem mem_ite_singleton {α : Type} {c : Prop} [Decidable c] {x e : α}
    (h : e ∈ (if c then [x] else [])) : e = x := by
  split_ifs at h <;> simp_all

theorem validateUserAgent_errs_spec (value : String) (n : Nat) :
    ∀ e ∈ (validateUserAgent value n).1, e.line = n ∧ e.severity = .error := by
  intro e he
  unfold validateUserAgent at he
  split_ifs at he <;> simp_all [userAgentEmptyError]

theorem validateUserAgent_warns_spec (value : String) (n : Nat) :
    ∀ e ∈ (validateUserAgent value n).2, e.line = n ∧ e.severity = .warning := by
  intro e he
  unfold validateUserAgent at he
  split_ifs at he <;> simp_all [userAgentTokenWarning]

theorem validatePath_spec (d v : String) (n : Nat) :
    ∀ e ∈ validatePath d v n, e.line = n ∧ e.severity = .warning := by
  intro e he
  unfold validatePath at he
  split_ifs at he <;>
    simp only [List.append_nil, List.nil_append, List.mem_append,
      List.mem_singleton, List.not_mem_nil, or_false, false_or, or_assoc] at he <;>
    first
      | (rcases he with rfl | rfl | rfl <;> exact ⟨rfl, rfl⟩)
      | (rcases he with rfl | rfl <;> exact ⟨rfl, rfl⟩)
      | (subst he; exact ⟨rfl, rfl⟩)

theorem validateSitemap_spec (v : String) (n : Nat) :
    ∀ e ∈ validateSitemap v n, e.line = n ∧ e.severity = .error := by
  intro e he
  unfold validateSitemap at he
  split_ifs at he with h0
  · cases List.mem_singleton.mp he
    exact ⟨rfl, rfl⟩
  · rcases hu : urlProtocol v with _ | p <;> rw [hu] at he <;> dsimp only at he
    · cases List.mem_singleton.mp he
      exact ⟨rfl, rfl⟩
    · split_ifs at he
      · exact absurd he (List.not_mem_nil e)
      · cases List.mem_singleton.mp he
        exact ⟨rfl, rfl⟩

theorem validateCrawlDelay_spec (v : String) (n : Nat) :
    ∀ e ∈ validateCrawlDelay v n, e.line = n ∧ e.severity = .warning := by
  intro e he
  unfold validateCrawlDelay at he
  rcases hp : parseFloatSgn v with _ | s <;> rw [hp] at he <;> dsimp only at he
  · cases List.mem_singleton.mp he
    exact ⟨rfl, rfl⟩
  · split_ifs at he
    · cases List.mem_singleton.mp he
      exact ⟨rfl, rfl⟩
    · exact absurd he (List.not_mem_nil e)

theorem classificationWarns_spec (name : String) (n : Nat) :
    ∀ e ∈ classificationWarns name n, e.line = n ∧ e.severity = .warning := by
  intro e he
  unfold classificationWarns at he
  split_ifs at he <;> simp_all [nonStandardWarning, unknownWarning]

theorem processLine_errs_spec (cua : Option String) (n : Nat) (l : List Char) :
    ∀ e ∈ (processLine cua n l).errs, e.line = n ∧ e.severity = .error := by
  intro e he
  unfold processLine at he
  rcases hp : parseLine l with _ | _ | ⟨name, value⟩ <;> rw [hp] at he <;>
    dsimp only at he
  · exact absurd he (List.not_mem_nil e)
  · cases List.mem_singleton.mp he
    exact ⟨rfl, rfl⟩
  · split_ifs at he
    · exact validateUserAgent_errs_spec value n e he
    · cases List.mem_singleton.mp he
      exact ⟨rfl, rfl⟩
    · exact absurd he (List.not_mem_nil e)
    · exact validateSitemap_spec value n e he
    · exact absurd he (List.not_mem_nil e)
    · exact absurd he (List.not_mem_nil e)

theorem processLine_warns_spec (cua : Option String) (n : Nat) (l : List Char) :
    ∀ e ∈ (processLine cua n l).warns, e.line = n ∧ e.severity = .warning := by
  intro e he
  unfold processLine at he
  rcases hp : parseLine l with _ | _ | ⟨name, value⟩ <;> rw [hp] at he <;>
    dsimp only at he
  · exact absurd he (List.not_mem_nil e)
  · exact absurd he (List.not_mem_nil e)
  · split_ifs at he
    · rcases List.mem_append.mp he with h | h
      · exact classificationWarns_spec name n e h
      · exact validateUserAgent_warns_spec value n e h
    · exact classificationWarns_spec name n e he
    · rcases List.mem_append.mp he with h | h
      · exact classificationWarns_spec name n e h
      · exact validatePath_spec name value n e h
    · exact classificationWarns_spec name n e he
    · rcases List.mem_append.mp he with h | h
      · exact classificationWarns_spec name n e h
      · exact validateCrawlDelay_spec value n e h
    · exact classificationWarns_spec name n e he

/-! ### Helper lemmas: the scan as a whole -/

theorem scanLines_errs_bound (ls : List (List Char)) :
    ∀ (cua : Option String) (h : Bool) (n : Nat),
      ∀ e ∈ (scanLines cua h n ls).errs, n ≤ e.line ∧ e.line < n + ls.length := by
  induction ls with
  | nil => intro cua h n e he; exact absurd he (List.not_mem_nil e)
  | cons l ls ih =>
    intro cua h n e he
    simp only [scanLines] at he
    rcases List.mem_append.mp he with h1 | h1
    · have := (processLine_errs_spec cua n l e h1).1
      simp only [List.length_cons]
      omega
    · have := ih _ _ (n + 1) e h1
      simp only [List.length_cons]
      omega

theorem scanLines_warns_bound (ls : List (List Char)) :
    ∀ (cua : Option String) (h : Bool) (n : Nat),
      ∀ e ∈ (scanLines cua h n ls).warns, n ≤ e.line ∧ e.line < n + ls.length := by
  induction ls with
  | nil => intro cua h n e he; exact absurd he (List.not_mem_nil e)
  | cons l ls ih =>
    intro cua h n e he
    simp only [scanLines] at he
    rcases List.mem_append.mp he with h1 | h1
    · have := (processLine_warns_spec cua n l e h1).1
      simp only [List.length_cons]
      omega
    · have := ih _ _ (n + 1) e h1
      simp only [List.length_cons]
      omega

theorem scanLines_errs_sorted (ls : List (List Char)) :
    ∀ (cua : Option String) (h : Bool) (n : Nat),
      List.Pairwise (fun a b => a.line ≤ b.line) (scanLines cua h n ls).errs := by
  induction ls with
  | nil => intro cua h n; exact List.Pairwise.nil
  | cons l ls ih =>
    intro cua h n
    simp only [scanLines]
    rw [List.pairwise_append]
    refine ⟨?_, ih _ _ (n + 1), ?_⟩
    · apply List.pairwise_of_forall_mem_list
      intro a ha b hb
      have h1 := (processLine_errs_spec cua n l a ha).1
      have h2 := (processLine_errs_spec cua n l b hb).1
      omega
    · intro a ha b hb
      have h1 := (processLine_errs_spec cua n l a ha).1
      have h2 := (scanLines_errs_bound ls _ _ (n + 1) b hb).1
      omega

theorem scanLines_warns_sorted (ls : List (List Char)) :
    ∀ (cua : Option String) (h : Bool) (n : Nat),
      List.Pairwise (fun a b => a.line ≤ b.line) (scanLines cua h n ls).warns := by
  induction ls with
  | nil => intro cua h n; exact List.Pairwise.nil
  | cons l ls ih =>
    intro cua h n
    simp only [scanLines]
    rw [List.pairwise_append]
    refine ⟨?_, ih _ _ (n + 1), ?_⟩
    · apply List.pairwise_of_forall_mem_list
      intro a ha b hb
      have h1 := (processLine_warns_spec cua n l a ha).1
      have h2 := (processLine_warns_spec cua n l b hb).1
      omega
    · intro a ha b hb
      have h1 := (processLine_warns_spec cua n l a ha).1
      have h2 := (scanLines_warns_bound ls _ _ (n + 1) b hb).1
      omega

theorem scanLines_append (as bs : List (List Char)) :
    ∀ (cua : Option String) (h : Bool) (n : Nat),
      scanLines cua h n (as ++ bs) =
        ⟨(scanLines cua h n as).errs ++
            (scanLines (scanLines cua h n as).cua (scanLines cua h n as).hasUA
              (n + as.length) bs).errs,
          (scanLines cua h n as).warns ++
            (scanLines (scanLines cua h n as).cua (scanLines cua h n as).hasUA
              (n + as.length) bs).warns,
          (scanLines (scanLines cua h n as).cua (scanLines cua h n as).hasUA
            (n + as.length) bs).cua,
          (scanLines (scanLines cua h n as).cua (scanLines cua h n as).hasUA
            (n + as.length) bs).hasUA⟩ := by
  induction as with
  | nil => intro cua h n; simp [scanLines]
  | cons a as ih =>
    intro cua h n
    simp only [List.cons_append, scanLines, List.append_eq]
    rw [ih]
    have hn : n + 1 + as.length = n + (as.length + 1) := by omega
    simp only [List.length_cons, hn, List.append_assoc]

theorem processLine_cua (cua : Option String) (n : Nat) (l : List Char) :
    (processLine cua n l).cua = updUA cua l := by
  unfold processLine updUA
  rcases hp : parseLine l with _ | _ | ⟨name, value⟩ <;> dsimp only
  split_ifs <;> rfl

theorem scanLines_cua (ls : List (List Char)) :
    ∀ (cua : Option String) (h : Bool) (n : Nat),
      (scanLines cua h n ls).cua = lastUAOr cua ls := by
  induction ls with
  | nil => intro cua h n; rfl
  | cons l ls ih =>
    intro cua h n
    simp only [scanLines, lastUAOr]
    rw [ih, processLine_cua]

theorem validate_errors_eq (content : String) (h : trimList content.data ≠ []) :
    (validate content).errors =
      (scanLines none false 1 (splitNl content.data)).errs ++
        (if (scanLines none false 1 (splitNl content.data)).hasUA then []
         else [noUserAgentError]) := by
  have hc : ¬(content.data = [] ∨ trimList content.data = []) := by
    rintro (h1 | h1)
    · exact h (by rw [h1]; rfl)
    · exact h h1
  unfold validate
  rw [if_neg hc]

theorem validate_warnings_eq (content : String) (h : trimList content.data ≠ []) :
    (validate content).warnings =
      (if 500 * 1024 < utf8ByteSize content then [sizeWarning] else []) ++
        (if isValidUtf8Str content then [] else [utf8Warning]) ++
        (scanLines none false 1 (splitNl content.data)).warns := by
  have hc : ¬(content.data = [] ∨ trimList content.data = []) := by
    rintro (h1 | h1)
    · exact h (by rw [h1]; rfl)
    · exact h h1
  unfold validate
  rw [if_neg hc]

/-! ### The UTF-8 round trip: `TextEncoder` output is always well formed -/

theorem utf8Encode_cons (c : Nat) (l : List Nat) :
    utf8Encode (c :: l) = utf8EncodeChar c ++ utf8Encode l := by
  simp [utf8Encode]

theorem utf8ValidAux_cont (lo hi x : Nat) (expect : List (Nat × Nat))
    (rest : List Nat) (hx : lo ≤ x ∧ x ≤ hi) :
    utf8ValidAux ((lo, hi) :: expect) (x :: rest) = utf8ValidAux expect rest := by
  rw [utf8ValidAux, if_pos hx]

theorem utf8ValidAux_ascii (b : Nat) (rest : List Nat) (hb : b ≤ 0x7F) :
    utf8ValidAux [] (b :: rest) = utf8ValidAux [] rest := by
  rw [utf8ValidAux, if_pos hb]

theorem utf8ValidAux_two (b : Nat) (rest : List Nat) (hb : 0xC2 ≤ b ∧ b ≤ 0xDF) :
    utf8ValidAux [] (b :: rest) = utf8ValidAux [(0x80, 0xBF)] rest := by
  have h1 : ¬b ≤ 0x7F := by omega
  rw [utf8ValidAux, if_neg h1, if_pos hb]

theorem utf8ValidAux_e0 (rest : List Nat) :
    utf8ValidAux [] (0xE0 :: rest) =
      utf8ValidAux [(0xA0, 0xBF), (0x80, 0xBF)] rest := rfl

theorem utf8ValidAux_e1ec (b : Nat) (rest : List Nat)
    (hb : 0xE1 ≤ b ∧ b ≤ 0xEC) :
    utf8ValidAux [] (b :: rest) =
      utf8ValidAux [(0x80, 0xBF), (0x80, 0xBF)] rest := by
  have h1 : ¬b ≤ 0x7F := by omega
  have h2 : ¬(0xC2 ≤ b ∧ b ≤ 0xDF) := by omega
  have h3 : ¬b = 0xE0 := by omega
  rw [utf8ValidAux, if_neg h1, if_neg h2, if_neg h3, if_pos hb]

theorem utf8ValidAux_ed (rest : List Nat) :
    utf8ValidAux [] (0xED :: rest) =
      utf8ValidAux [(0x80, 0x9F), (0x80, 0xBF)] rest := rfl

theorem utf8ValidAux_eeef (b : Nat) (rest : List Nat)
    (hb : 0xEE ≤ b ∧ b ≤ 0xEF) :
    utf8ValidAux [] (b :: rest) =
      utf8ValidAux [(0x80, 0xBF), (0x80, 0xBF)] rest := by
  have h1 : ¬b ≤ 0x7F := by omega
  have h2 : ¬(0xC2 ≤ b ∧ b ≤ 0xDF) := by omega
  have h3 : ¬b = 0xE0 := by omega
  have h4 : ¬(0xE1 ≤ b ∧ b ≤ 0xEC) := by omega
  have h5 : ¬b = 0xED := by omega
  rw [utf8ValidAux, if_neg h1, if_neg h2, if_neg h3, if_neg h4, if_neg h5,
    if_pos hb]

theorem utf8ValidAux_f0 (rest : List Nat) :
    utf8ValidAux [] (0xF0 :: rest) =
      utf8ValidAux [(0x90, 0xBF), (0x80, 0xBF), (0x80, 0xBF)] rest := rfl

theorem utf8ValidAux_f1f3 (b : Nat) (rest : List Nat)
    (hb : 0xF1 ≤ b ∧ b ≤ 0xF3) :
    utf8ValidAux [] (b :: rest) =
      utf8ValidAux [(0x80, 0xBF), (0x80, 0xBF), (0x80, 0xBF)] rest := by
  have h1 : ¬b ≤ 0x7F := by omega
  have h2 : ¬(0xC2 ≤ b ∧ b ≤ 0xDF) := by omega
  have h3 : ¬b = 0xE0 := by omega
  have h4 : ¬(0xE1 ≤ b ∧ b ≤ 0xEC) := by omega
  have h5 : ¬b = 0xED := by omega
  have h6 : ¬(0xEE ≤ b ∧ b ≤ 0xEF) := by omega
  have h7 : ¬b = 0xF0 := by omega
  rw [utf8ValidAux, if_neg h1, if_neg h2, if_neg h3, if_neg h4, if_neg h5,
    if_neg h6, if_neg h7, if_pos hb]

theorem utf8ValidAux_f4 (rest : List Nat) :
    utf8ValidAux [] (0xF4 :: rest) =
      utf8ValidAux [(0x80, 0x8F), (0x80, 0xBF), (0x80, 0xBF)] rest := rfl

theorem utf8ValidAux_encodeChar (c : Nat) (hc : isScalarValue c) (bs : List Nat) :
    utf8ValidAux [] (utf8EncodeChar c ++ bs) = utf8ValidAux [] bs := by
  obtain ⟨h1, h2⟩ := hc
  unfold utf8EncodeChar
  split_ifs with ha hb hd
  · simp only [List.cons_append, List.nil_append]
    rw [utf8ValidAux_ascii _ _ (by omega)]
  · simp only [List.cons_append, List.nil_append]
    rw [utf8ValidAux_two _ _ (by omega),
      utf8ValidAux_cont _ _ _ _ _ (by omega)]
  · simp only [List.cons_append, List.nil_append]
    by_cases hz : c < 0x1000
    · have hb0 : 0xE0 + c / 0x1000 = 0xE0 := by omega
      rw [hb0, utf8ValidAux_e0, utf8ValidAux_cont _ _ _ _ _ (by omega),
        utf8ValidAux_cont _ _ _ _ _ (by omega)]
    · by_cases hz2 : c < 0xD000
      · rw [utf8ValidAux_e1ec _ _ (by omega),
          utf8ValidAux_cont _ _ _ _ _ (by omega),
          utf8ValidAux_cont _ _ _ _ _ (by omega)]
      · by_cases hz3 : c < 0xE000
        · have hb0 : 0xE0 + c / 0x1000 = 0xED := by omega
          rw [hb0, utf8ValidAux_ed, utf8ValidAux_cont _ _ _ _ _ (by omega),
            utf8ValidAux_cont _ _ _ _ _ (by omega)]
        · rw [utf8ValidAux_eeef _ _ (by omega),
            utf8ValidAux_cont _ _ _ _ _ (by omega),
            utf8ValidAux_cont _ _ _ _ _ (by omega)]
  · simp only [List.cons_append, List.nil_append]
    by_cases hz : c < 0x40000
    · have hb0 : 0xF0 + c / 0x40000 = 0xF0 := by omega
      rw [hb0, utf8ValidAux_f0, utf8ValidAux_cont _ _ _ _ _ (by omega),
        utf8ValidAux_cont _ _ _ _ _ (by omega),
        utf8ValidAux_cont _ _ _ _ _ (by omega)]
    · by_cases hz2 : c < 0x100000
      · rw [utf8ValidAux_f1f3 _ _ (by omega),
          utf8ValidAux_cont _ _ _ _ _ (by omega),
          utf8ValidAux_cont _ _ _ _ _ (by omega),
          utf8ValidAux_cont _ _ _ _ _ (by omega)]
      · have hb0 : 0xF0 + c / 0x40000 = 0xF4 := by omega
        rw [hb0, utf8ValidAux_f4, utf8ValidAux_cont _ _ _ _ _ (by omega),
          utf8ValidAux_cont _ _ _ _ _ (by omega),
          utf8ValidAux_cont _ _ _ _ _ (by omega)]

theorem utf8Valid_encode (l : List Nat) (h : ∀ c ∈ l, isScalarValue c) :
    utf8Valid (utf8Encode l) = true := by
  unfold utf8Valid
  induction l with
  | nil => rfl
  | cons c l ih =>
    rw [utf8Encode_cons, utf8ValidAux_encodeChar c (h c (List.mem_cons_self c l))]
    exact ih (fun x hx => h x (List.mem_cons_of_mem c hx))

theorem toScalars_scalar (us : List Nat) (h : ∀ u ∈ us, u < 0x10000) :
    ∀ c ∈ toScalars us, isScalarValue c := by
  induction us using toScalars.induct with
  | case1 =>
    intro c hc
    exact absurd hc (List.not_mem_nil c)
  | case2 u hu =>
    intro c hc
    rw [toScalars, if_pos hu] at hc
    cases List.mem_singleton.mp hc
    exact ⟨by omega, by omega⟩
  | case3 u hu =>
    intro c hc
    rw [toScalars, if_neg hu] at hc
    cases List.mem_singleton.mp hc
    have hb := h u (List.mem_cons_self u [])
    simp only [isLeadSurrogate, isTrailSurrogate, Bool.or_eq_true,
      decide_eq_true_eq, not_or] at hu
    exact ⟨by omega, by omega⟩
  | case4 u v rest hu hv ih =>
    intro c hc
    rw [toScalars, if_pos hu, if_pos hv] at hc
    rcases List.mem_cons.mp hc with hceq | hc2
    · rw [hceq]
      simp only [isLeadSurrogate, decide_eq_true_eq] at hu
      simp only [isTrailSurrogate, decide_eq_true_eq] at hv
      unfold combineSurrogates
      refine ⟨?_, by omega⟩
      have := h v (List.mem_cons_of_mem u (List.mem_cons_self v rest))
      omega
    · exact ih
        (fun x hx => h x (List.mem_cons_of_mem u (List.mem_cons_of_mem v hx))) c hc2
  | case5 u v rest hu hv ih =>
    intro c hc
    rw [toScalars, if_pos hu, if_neg hv] at hc
    rcases List.mem_cons.mp hc with hceq | hc2
    · rw [hceq]
      exact ⟨by omega, by omega⟩
    · exact ih (fun x hx => h x (List.mem_cons_of_mem u hx)) c hc2
  | case6 u v rest hu ht ih =>
    intro c hc
    rw [toScalars, if_neg hu, if_pos ht] at hc
    rcases List.mem_cons.mp hc with hceq | hc2
    · rw [hceq]
      exact ⟨by omega, by omega⟩
    · exact ih (fun x hx => h x (List.mem_cons_of_mem u hx)) c hc2
  | case7 u v rest hu ht ih =>
    intro c hc
    rw [toScalars, if_neg hu, if_neg ht] at hc
    rcases List.mem_cons.mp hc with hceq | hc2
    · rw [hceq]
      have hb := h u (List.mem_cons_self u (v :: rest))
      simp only [isLeadSurrogate, decide_eq_true_eq] at hu
      simp only [isTrailSurrogate, decide_eq_true_eq] at ht
      exact ⟨by omega, by omega⟩
    · exact ih (fun x hx => h x (List.mem_cons_of_mem u hx)) c hc2

theorem isValidUtf8Units_of_bound (us : List Nat) (h : ∀ u ∈ us, u < 0x10000) :
    isValidUtf8Units us = true := by
  unfold isValidUtf8Units
  exact utf8Valid_encode _ (toScalars_scalar us h)

theorem char_toNat_lt (c : Char) : c.toNat < 0x110000 := by
  have he : c.toNat = c.val.toNat := rfl
  rcases c.valid with h | ⟨h1, h2⟩
  · have := @UInt32.toNat_lt_of_lt c.val 0xd800 (by decide) h
    omega
  · have := @UInt32.toNat_lt_of_lt c.val 0x110000 (by decide) h2
    omega

theorem charUnits_bound (c : Char) : ∀ u ∈ charUnits c, u < 0x10000 := by
  intro u hu
  have hc := char_toNat_lt c
  unfold charUnits at hu
  split_ifs at hu with hs
  · have := List.mem_singleton.mp hu
    omega
  · rcases List.mem_cons.mp hu with hueq | hu2
    · omega
    · have := List.mem_singleton.mp hu2
      omega

theorem jsCodeUnits_bound (s : String) : ∀ u ∈ jsCodeUnits s, u < 0x10000 := by
  intro u hu
  unfold jsCodeUnits at hu
  rw [List.mem_flatten] at hu
  obtain ⟨chunk, hchunk, hu⟩ := hu
  rw [List.mem_map] at hchunk
  obtain ⟨c, _, rfl⟩ := hchunk
  exact charUnits_bound c u hu

theorem isValidUtf8Str_true (s : String) : isValidUtf8Str s = true :=
  isValidUtf8Units_of_bound _ (jsCodeUnits_bound s)

/-! ### Locating one line of the scan inside the whole report -/

theorem processLine_path (cua : Option String) (n : Nat) (l : List Char)
    (name value : String) (hp : parseLine l = .dir name value)
    (hname : name = "disallow" ∨ name = "allow") :
    processLine cua n l =
      if jsFalsy cua then ⟨[mustFollowError n name], [], cua, false⟩
      else ⟨[], validatePath name value n, cua, false⟩ := by
  unfold processLine
  rw [hp]
  dsimp only
  have hcw : classificationWarns name n = [] := by
    rcases hname with rfl | rfl <;> rw [classificationWarns, if_pos (by decide)]
  have hnua : ¬name = "user-agent" := by
    rcases hname with rfl | rfl <;> decide
  rw [if_neg hnua, if_pos hname, hcw]
  split_ifs
  · rfl
  · rw [List.nil_append]

theorem validate_mem_line_iff (content : String) (before : List (List Char))
    (l : List Char) (after : List (List Char)) (e : ValidationError)
    (h : trimList content.data ≠ [])
    (hsplit : splitNl content.data = before ++ l :: after)
    (hline : e.line = before.length + 1) :
    (e ∈ (validate content).errors ↔
      e ∈ (processLine (lastUAOr none before) (before.length + 1) l).errs) ∧
    (e ∈ (validate content).warnings ↔
      e ∈ (processLine (lastUAOr none before) (before.length + 1) l).warns) := by
  have hMeq : processLine (scanLines none false 1 before).cua
      (1 + before.length) l =
      processLine (lastUAOr none before) (before.length + 1) l := by
    rw [scanLines_cua, Nat.add_comm 1 before.length]
  constructor
  · rw [validate_errors_eq content h, hsplit,
      scanLines_append before (l :: after) none false 1]
    dsimp only
    simp only [scanLines]
    constructor
    · intro hmem
      rcases List.mem_append.mp hmem with hsc | hpost
      · rcases List.mem_append.mp hsc with hpre | hrest
        · exact absurd ((scanLines_errs_bound before none false 1 e hpre).2)
            (by omega)
        · rcases List.mem_append.mp hrest with hmid | hsuf
          · rw [hMeq] at hmid
            exact hmid
          · have := (scanLines_errs_bound after _ _ (1 + before.length + 1)
              e hsuf).1
            omega
      · split_ifs at hpost
        · exact absurd hpost (List.not_mem_nil e)
        · exfalso
          have h0 : noUserAgentError.line = 0 := rfl
          rw [List.mem_singleton.mp hpost] at hline
          omega
    · intro hmid
      refine List.mem_append.mpr (Or.inl (List.mem_append.mpr (Or.inr
        (List.mem_append.mpr (Or.inl ?_)))))
      rw [hMeq]
      exact hmid
  · rw [validate_warnings_eq content h, hsplit,
      scanLines_append before (l :: after) none false 1]
    dsimp only
    simp only [scanLines]
    have hdoc : ∀ x ∈ (if 500 * 1024 < utf8ByteSize content then [sizeWarning]
        else []) ++ (if isValidUtf8Str content then [] else [utf8Warning]),
        x.line = 0 := by
      intro x hx
      rcases List.mem_append.mp hx with h1 | h1 <;> split_ifs at h1 <;>
        simp_all [sizeWarning, utf8Warning]
    constructor
    · intro hmem
      rcases List.mem_append.mp hmem with hd | hsc
      · exfalso
        have := hdoc e hd
        omega
      · rcases List.mem_append.mp hsc with hpre | hrest
        · exact absurd ((scanLines_warns_bound before none false 1 e hpre).2)
            (by omega)
        · rcases List.mem_append.mp hrest with hmid | hsuf
          · rw [hMeq] at hmid
            exact hmid
          · have := (scanLines_warns_bound after _ _ (1 + before.length + 1)
              e hsuf).1
            omega
    · intro hmid
      refine List.mem_append.mpr (Or.inr (List.mem_append.mpr (Or.inr
        (List.mem_append.mpr (Or.inl ?_)))))
      rw [hMeq]
      exact hmid

/-! ### The claims -/

/-- C4: for every input string, the report returned by `validate` satisfies
`isValid = true` iff its `errors` sequence is empty; warnings never enter
into this. -/
theorem spec_c4 (content : String) :
    (validate content).isValid = true ↔ (validate content).errors = [] := by
  unfold validate
  by_cases h : content.data = [] ∨ trimList content.data = []
  · rw [if_pos h]
    simp
  · rw [if_neg h]
    dsimp only
    exact List.isEmpty_iff

/-- C5: on empty or whitespace-only input, `validate` returns exactly one
error (the empty-file error at line 0), no warnings, and `isValid = false`;
no other finding is produced. -/
theorem spec_c5 (content : String) (h : content.data.all isJsWhitespace = true) :
    validate content = ⟨false, [emptyFileError], []⟩ := by
  unfold validate
  rw [if_pos (Or.inr (trimList_eq_nil_of_all content.data h))]

/-- Witness for C5 at the whitespace-only input from §8 of the design. -/
theorem spec_c5_witness :
    ("   \n\n ").data.all isJsWhitespace = true ∧
      validate "   \n\n " = ⟨false, [emptyFileError], []⟩ :=
  ⟨by decide, spec_c5 "   \n\n " (by decide)⟩

/-- C2 (amended): in every report, `warnings` is ordered by line number
(document-level line-0 warnings first, then per-line warnings in ascending
line order), and -- apart from the empty-file short-circuit -- `errors`
consists of per-line findings (every one carrying a positive line number)
in ascending line order, followed last -- not first -- by the post-scan
line-0 missing-user-agent error when that is emitted. -/
theorem spec_c2 (content : String) :
    List.Pairwise (fun a b => a.line ≤ b.line) (validate content).warnings ∧
    (validate content = ⟨false, [emptyFileError], []⟩ ∨
      ∃ es post, (validate content).errors = es ++ post ∧
        List.Pairwise (fun a b => a.line ≤ b.line) es ∧
        (∀ e ∈ es, 1 ≤ e.line) ∧
        (post = [] ∨ post = [noUserAgentError])) := by
  by_cases h : trimList content.data = []
  · have hv : validate content = ⟨false, [emptyFileError], []⟩ := by
      unfold validate
      rw [if_pos (Or.inr h)]
    rw [hv]
    exact ⟨List.Pairwise.nil, Or.inl rfl⟩
  · constructor
    · rw [validate_warnings_eq content h]
      have hdoc : ∀ e ∈ (if 500 * 1024 < utf8ByteSize content then [sizeWarning]
            else []) ++ (if isValidUtf8Str content then [] else [utf8Warning]),
          e.line = 0 := by
        intro e he
        rcases List.mem_append.mp he with h1 | h1 <;> split_ifs at h1 <;>
          simp_all [sizeWarning, utf8Warning]
      rw [List.pairwise_append]
      refine ⟨?_, scanLines_warns_sorted _ _ _ 1, ?_⟩
      · exact List.pairwise_of_forall_mem_list
          (fun a ha b hb => by rw [hdoc a ha]; exact Nat.zero_le _)
      · intro a ha b hb
        rw [hdoc a ha]
        exact Nat.zero_le _
    · refine Or.inr ⟨(scanLines none false 1 (splitNl content.data)).errs,
        (if (scanLines none false 1 (splitNl content.data)).hasUA then []
         else [noUserAgentError]),
        validate_errors_eq content h, scanLines_errs_sorted _ _ _ 1, ?_, ?_⟩
      · intro e he
        exact (scanLines_errs_bound _ none false 1 e he).1
      · split_ifs
        · exact Or.inl rfl
        · exact Or.inr rfl

/-- Counterexample to C2 as stated: on `"disallow: /x"` the errors sequence
is the line-1 grouping error followed by the line-0 post-scan error, so a
line-0 finding does not precede a positive-line finding. -/
theorem spec_c2_counterexample :
    (validate "disallow: /x").errors =
        [mustFollowError 1 "disallow", noUserAgentError] ∧
      (mustFollowError 1 "disallow").line = 1 ∧ noUserAgentError.line = 0 :=
  ⟨by decide, rfl, rfl⟩

/-- C8: `formatValidationResults` produces exactly the §4.3 format: the
success line iff the report is valid with no warnings, otherwise an
"Errors:" section iff errors exist, a blank separating line iff both
sections are present, and a "Warnings:" section iff warnings exist, each
entry rendered as `  Line <n>: <message>`. -/
theorem spec_c8 (r : ValidationResult) :
    formatValidationResults r = formatResultsSpec r := by
  unfold formatValidationResults formatResultsSpec
  by_cases hok : r.isValid = true ∧ r.warnings.length = 0
  · rw [if_pos hok, if_pos ⟨hok.1, List.length_eq_zero.mp hok.2⟩]
  · have hok2 : ¬(r.isValid = true ∧ r.warnings = []) := by
      intro hc
      exact hok ⟨hc.1, by simp [hc.2]⟩
    rw [if_neg hok, if_neg hok2]
    dsimp only
    by_cases he : r.errors = []
    · rw [if_neg (show ¬0 < r.errors.length by simp [he]),
        if_neg (show ¬r.errors ≠ [] from fun hne => hne he),
        if_neg (show ¬(r.errors ≠ [] ∧ r.warnings ≠ []) from fun hc => hc.1 he)]
      by_cases hw : r.warnings = []
      · rw [if_neg (show ¬0 < r.warnings.length by simp [hw]),
          if_neg (show ¬r.warnings ≠ [] from fun hne => hne hw)]
        simp
      · rw [if_pos (show 0 < r.warnings.length from List.length_pos.mpr hw),
          if_pos (show r.warnings ≠ [] from hw),
          if_neg (show ¬("" : String) ≠ "" from fun hne => hne rfl)]
        simp
    · have houtne : ("Errors:\n" ++ String.join (r.errors.map findingLine)) ≠ "" := by
        intro hcontra
        have hlen := congrArg String.length hcontra
        rw [String.length_append] at hlen
        have h8 : ("Errors:\n").length = 8 := by decide
        have h0 : ("" : String).length = 0 := rfl
        omega
      rw [if_pos (show 0 < r.errors.length from List.length_pos.mpr he),
        if_pos (show r.errors ≠ [] from he)]
      by_cases hw : r.warnings = []
      · rw [if_neg (show ¬0 < r.warnings.length by simp [hw]),
          if_neg (show ¬(r.errors ≠ [] ∧ r.warnings ≠ []) from fun hc => hc.2 hw),
          if_neg (show ¬r.warnings ≠ [] from fun hne => hne hw)]
        simp
      · rw [if_pos (show 0 < r.warnings.length from List.length_pos.mpr hw),
          if_pos (show r.errors ≠ [] ∧ r.warnings ≠ [] from ⟨he, hw⟩),
          if_pos (show r.warnings ≠ [] from hw),
          if_pos houtne]
        apply String.ext
        simp [List.append_assoc]

/-- C3 (amended): for every non-empty path value checked by path
validation, the dollar warning is emitted iff the value contains a `$` and
its final character is not `$`.  (A non-final `$` in a value that also ends
with `$` triggers no warning: the code only tests `endsWith`.) -/
theorem spec_c3 (directive value : String) (n : Nat) (hv : value ≠ "") :
    dollarWarning n ∈ validatePath directive value n ↔
      ('$' ∈ value.data ∧ value.data.getLast? ≠ some '$') := by
  unfold validatePath
  rw [if_neg (show ¬(directive = "disallow" ∧ value = "") from fun hc => hv hc.2)]
  constructor
  · intro hmem
    rcases List.mem_append.mp hmem with h1 | h1
    · exfalso
      rcases List.mem_append.mp h1 with h2 | h2 <;> split_ifs at h2 <;>
        simp_all [pathStartWarning, nonAsciiWarning, dollarWarning]
    · split_ifs at h1 with hcond
      · exact ⟨List.elem_iff.mp hcond.1, hcond.2⟩
      · exact absurd h1 (List.not_mem_nil _)
  · intro hcond
    refine List.mem_append.mpr (Or.inr ?_)
    rw [if_pos ⟨List.elem_iff.mpr hcond.1, hcond.2⟩]
    exact List.mem_singleton.mpr rfl

/-- Witness for C3 (amended) at value "/a$b": contains a non-final `$` and
does not end with `$`, so the warning is emitted. -/
theorem spec_c3_witness :
    (("/a$b" : String) ≠ "") ∧
      (dollarWarning 1 ∈ validatePath "allow" "/a$b" 1 ↔
        ('$' ∈ ("/a$b" : String).data ∧
          ("/a$b" : String).data.getLast? ≠ some '$')) :=
  ⟨by decide, spec_c3 "allow" "/a$b" 1 (by decide)⟩

/-- Counterexample to C3 as stated: in `"user-agent: a\nallow: $a$"` the
allow value `"$a$"` contains a `$` at non-final position 0, yet `validate`
emits no dollar warning for line 2 (the value ends with `$`, and the code
only tests the final character). -/
theorem spec_c3_counterexample :
    parseLine ("allow: $a$").data = LineParse.dir "allow" "$a$" ∧
      ("$a$" : String).data.get? 0 = some '$' ∧
      ("$a$" : String).data.length = 3 ∧
      (validate "user-agent: a\nallow: $a$").warnings = [pathStartWarning 2] ∧
      dollarWarning 2 ∉ (validate "user-agent: a\nallow: $a$").warnings := by
  decide

/-- C6: a sitemap directive line produces exactly the findings of
`validateSitemap` regardless of the grouping state (no grouping error even
before any user-agent line), and `validateSitemap` emits: the empty-URL
error on an empty value; the invalid-URL error when the value does not
parse as an absolute URL; the protocol error when it parses with a scheme
other than http/https; and nothing for a parseable http/https URL. -/
theorem spec_c6 :
    (∀ (cua : Option String) (n : Nat) (l : List Char) (value : String),
      parseLine l = .dir "sitemap" value →
        processLine cua n l = ⟨validateSitemap value n, [], cua, false⟩) ∧
    (∀ n : Nat, validateSitemap "" n = [sitemapEmptyError n]) ∧
    (∀ (value : String) (n : Nat), value ≠ "" → urlProtocol value = none →
      validateSitemap value n = [sitemapInvalidError n]) ∧
    (∀ (value : String) (n : Nat) (p : String), urlProtocol value = some p →
      p ≠ "http:" → p ≠ "https:" →
      validateSitemap value n = [sitemapProtocolError n]) ∧
    (∀ (value : String) (n : Nat) (p : String), urlProtocol value = some p →
      (p = "http:" ∨ p = "https:") → validateSitemap value n = []) := by
  have hne : ∀ (value : String) (p : String), urlProtocol value = some p →
      value ≠ "" := by
    intro value p hu hcontra
    rw [hcontra, show urlProtocol "" = none from by decide] at hu
    exact Option.noConfusion hu
  refine ⟨?_, ?_, ?_, ?_, ?_⟩
  · intro cua n l value hp
    unfold processLine
    rw [hp]
    dsimp only
    rw [if_neg (show ¬("sitemap" : String) = "user-agent" by decide),
      if_neg (show ¬(("sitemap" : String) = "disallow" ∨
        ("sitemap" : String) = "allow") by decide),
      if_pos rfl,
      show classificationWarns "sitemap" n = [] from by
        rw [classificationWarns, if_pos (by decide)]]
  · intro n
    unfold validateSitemap
    rw [if_pos rfl]
  · intro value n hv hu
    unfold validateSitemap
    rw [if_neg hv, hu]
  · intro value n p hu hp1 hp2
    unfold validateSitemap
    rw [if_neg (hne value p hu), hu]
    dsimp only
    rw [if_neg (show ¬(p = "http:" ∨ p = "https:") from fun hc => hc.elim hp1 hp2)]
  · intro value n p hu hp
    unfold validateSitemap
    rw [if_neg (hne value p hu), hu]
    dsimp only
    rw [if_pos hp]

/-- Witness for C6 on concrete sitemap lines and values. -/
theorem spec_c6_witness :
    processLine (some "a") 2 ("sitemap: https://example.com/map.xml").data =
        ⟨validateSitemap "https://example.com/map.xml" 2, [], some "a", false⟩ ∧
      validateSitemap "" 3 = [sitemapEmptyError 3] ∧
      validateSitemap "not-a-url" 4 = [sitemapInvalidError 4] ∧
      validateSitemap "ftp://example.com/x" 5 = [sitemapProtocolError 5] ∧
      validateSitemap "https://example.com/map.xml" 2 = [] :=
  ⟨spec_c6.1 (some "a") 2 ("sitemap: https://example.com/map.xml").data
      "https://example.com/map.xml" (by decide),
    spec_c6.2.1 3,
    spec_c6.2.2.1 "not-a-url" 4 (by decide) (by decide),
    spec_c6.2.2.2.1 "ftp://example.com/x" 5 "ftp:" (by decide) (by decide) (by decide),
    spec_c6.2.2.2.2 "https://example.com/map.xml" 2 "https:" (by decide) (by decide)⟩

/-- C7: a crawl-delay directive line produces no error: only the
non-standard-directive classification warning followed by the
directive-specific findings of `validateCrawlDelay`, which are: the
should-be-a-number warning when the value fails to parse as a float, the
should-not-be-negative warning when it parses negative, and nothing
otherwise -- all of severity warning. -/
theorem spec_c7 :
    (∀ (cua : Option String) (n : Nat) (l : List Char) (value : String),
      parseLine l = .dir "crawl-delay" value →
        processLine cua n l =
          ⟨[], nonStandardWarning n "crawl-delay" :: validateCrawlDelay value n,
            cua, false⟩) ∧
    (∀ (value : String) (n : Nat), parseFloatSgn value = none →
      validateCrawlDelay value n = [crawlDelayNumberWarning n]) ∧
    (∀ (value : String) (n : Nat) (s : Int), parseFloatSgn value = some s →
      s < 0 → validateCrawlDelay value n = [crawlDelayNegativeWarning n]) ∧
    (∀ (value : String) (n : Nat) (s : Int), parseFloatSgn value = some s →
      0 ≤ s → validateCrawlDelay value n = []) ∧
    (∀ (value : String) (n : Nat),
      (validateCrawlDelay value n).all
        (fun e => e.severity == Severity.warning) = true) := by
  refine ⟨?_, ?_, ?_, ?_, ?_⟩
  · intro cua n l value hp
    unfold processLine
    rw [hp]
    dsimp only
    rw [if_neg (show ¬("crawl-delay" : String) = "user-agent" by decide),
      if_neg (show ¬(("crawl-delay" : String) = "disallow" ∨
        ("crawl-delay" : String) = "allow") by decide),
      if_neg (show ¬("crawl-delay" : String) = "sitemap" by decide),
      if_pos rfl,
      show classificationWarns "crawl-delay" n = [nonStandardWarning n "crawl-delay"]
        from by rw [classificationWarns, if_neg (by decide), if_pos (by decide)]]
    rfl
  · intro value n h
    unfold validateCrawlDelay
    rw [h]
  · intro value n s h hs
    unfold validateCrawlDelay
    rw [h]
    dsimp only
    rw [if_pos hs]
  · intro value n s h hs
    unfold validateCrawlDelay
    rw [h]
    dsimp only
    rw [if_neg (by omega)]
  · intro value n
    unfold validateCrawlDelay
    rcases parseFloatSgn value with _ | s <;> dsimp only
    · rfl
    · split_ifs <;> rfl

/-- Witness for C7 on concrete crawl-delay lines and values. -/
theorem spec_c7_witness :
    processLine none 1 ("crawl-delay: -2").data =
        ⟨[], nonStandardWarning 1 "crawl-delay" :: validateCrawlDelay "-2" 1,
          none, false⟩ ∧
      validateCrawlDelay "abc" 1 = [crawlDelayNumberWarning 1] ∧
      validateCrawlDelay "-2" 1 = [crawlDelayNegativeWarning 1] ∧
      validateCrawlDelay "3.5" 1 = [] :=
  ⟨spec_c7.1 none 1 ("crawl-delay: -2").data "-2" (by decide),
    spec_c7.2.1 "abc" 1 (by decide),
    spec_c7.2.2.1 "-2" 1 (-1) (by decide) (by decide),
    spec_c7.2.2.2.1 "3.5" 1 1 (by decide) (by decide)⟩

/-- C1 (amended): a disallow/allow line receives the must-follow error iff
the scan state `currentUserAgent` is JavaScript-falsy at that line -- that
is, iff no user-agent directive appeared on an earlier line or the most
recent one had the empty value (not merely iff none appeared, as stated);
when the error is emitted, no path validation runs for the line, otherwise
path validation runs; and a user-agent line updates `currentUserAgent` to
its value (and sets `hasUserAgent`) regardless of the value's validity,
including the empty value. -/
theorem spec_c1 :
    (∀ (content : String) (before : List (List Char)) (l : List Char)
        (after : List (List Char)) (name value : String),
      trimList content.data ≠ [] →
      splitNl content.data = before ++ l :: after →
      parseLine l = .dir name value →
      (name = "disallow" ∨ name = "allow") →
      ((mustFollowError (before.length + 1) name ∈ (validate content).errors ↔
          jsFalsy (lastUAOr none before) = true) ∧
        (jsFalsy (lastUAOr none before) = true →
          processLine (lastUAOr none before) (before.length + 1) l =
            ⟨[mustFollowError (before.length + 1) name], [],
              lastUAOr none before, false⟩) ∧
        (jsFalsy (lastUAOr none before) = false →
          processLine (lastUAOr none before) (before.length + 1) l =
            ⟨[], validatePath name value (before.length + 1),
              lastUAOr none before, false⟩))) ∧
    (∀ (cua : Option String) (n : Nat) (l : List Char) (value : String),
      parseLine l = .dir "user-agent" value →
        (processLine cua n l).cua = some value ∧
          (processLine cua n l).setUA = true) := by
  constructor
  · intro content before l after name value h hsplit hp hname
    have hmem := (validate_mem_line_iff content before l after
      (mustFollowError (before.length + 1) name) h hsplit rfl).1
    have hpl := processLine_path (lastUAOr none before) (before.length + 1) l
      name value hp hname
    refine ⟨?_, ?_, ?_⟩
    · rw [hmem, hpl]
      by_cases hj : jsFalsy (lastUAOr none before) = true
      · rw [if_pos hj]
        exact ⟨fun _ => hj, fun _ => List.mem_singleton.mpr rfl⟩
      · rw [if_neg hj]
        exact ⟨fun hx => absurd hx (List.not_mem_nil _), fun hx => absurd hx hj⟩
    · intro hj
      rw [hpl, if_pos hj]
    · intro hj
      rw [hpl, if_neg (by simp [hj])]
  · intro cua n l value hp
    unfold processLine
    rw [hp]
    dsimp only
    rw [if_pos rfl]
    exact ⟨rfl, rfl⟩

/-- Counterexample to C1 as stated: in `"user-agent:\ndisallow: /x"` a
user-agent directive appears on line 1 (with empty value), yet the
must-follow error is still emitted for the disallow on line 2: the code
tests JavaScript truthiness of `currentUserAgent`, and the empty string is
falsy. -/
theorem spec_c1_counterexample :
    parseLine ("user-agent:").data = LineParse.dir "user-agent" "" ∧
      splitNl ("user-agent:\ndisallow: /x").data =
        [("user-agent:").data, ("disallow: /x").data] ∧
      mustFollowError 2 "disallow" ∈
        (validate "user-agent:\ndisallow: /x").errors := by
  decide

/-- Witness for C1 (amended) on `"user-agent: a\ndisallow: /x"`. -/
theorem spec_c1_witness :
    ((mustFollowError 2 "disallow" ∈
          (validate "user-agent: a\ndisallow: /x").errors ↔
        jsFalsy (lastUAOr none [("user-agent: a").data]) = true) ∧
      (jsFalsy (lastUAOr none [("user-agent: a").data]) = true →
        processLine (lastUAOr none [("user-agent: a").data]) 2
            ("disallow: /x").data =
          ⟨[mustFollowError 2 "disallow"], [],
            lastUAOr none [("user-agent: a").data], false⟩) ∧
      (jsFalsy (lastUAOr none [("user-agent: a").data]) = false →
        processLine (lastUAOr none [("user-agent: a").data]) 2
            ("disallow: /x").data =
          ⟨[], validatePath "disallow" "/x" 2,
            lastUAOr none [("user-agent: a").data], false⟩)) :=
  spec_c1.1 "user-agent: a\ndisallow: /x" [("user-agent: a").data]
    ("disallow: /x").data [] "disallow" "/x" (by decide) (by decide) (by decide)
    (Or.inl rfl)

/-- C9 (amended): an allow line with an empty value produces no finding of
any kind -- no error and no warning of the report carries its line number --
provided the *most recent* user-agent directive before it has a non-empty
value (so that `currentUserAgent` is JavaScript-truthy there); it is not
enough that some user-agent with a non-empty value appeared earlier, since a
later empty-valued user-agent overwrites `currentUserAgent` with the falsy
empty string and the allow line then gets the must-follow error instead. -/
theorem spec_c9 (content : String) (before : List (List Char)) (l : List Char)
    (after : List (List Char)) (v : String)
    (h : trimList content.data ≠ [])
    (hsplit : splitNl content.data = before ++ l :: after)
    (hp : parseLine l = .dir "allow" "")
    (hua : lastUAOr none before = some v) (hv : v ≠ "") :
    (validate content).errors.all (fun e => e.line != before.length + 1) = true ∧
      (validate content).warnings.all
        (fun e => e.line != before.length + 1) = true := by
  have hfalsy : jsFalsy (lastUAOr none before) = false := by
    rw [hua]
    simp [jsFalsy, hv]
  have hvp : validatePath "allow" "" (before.length + 1) = [] := rfl
  have hmid : processLine (lastUAOr none before) (before.length + 1) l =
      ⟨[], [], lastUAOr none before, false⟩ := by
    rw [processLine_path (lastUAOr none before) (before.length + 1) l
      "allow" "" hp (Or.inr rfl), if_neg (by simp [hfalsy]), hvp]
  constructor <;> rw [List.all_eq_true] <;> intro e he
  · by_cases hline : e.line = before.length + 1
    · exfalso
      have hx := ((validate_mem_line_iff content before l after e h hsplit
        hline).1).mp he
      rw [hmid] at hx
      exact absurd hx (List.not_mem_nil e)
    · simpa using hline
  · by_cases hline : e.line = before.length + 1
    · exfalso
      have hx := ((validate_mem_line_iff content before l after e h hsplit
        hline).2).mp he
      rw [hmid] at hx
      exact absurd hx (List.not_mem_nil e)
    · simpa using hline

/-- Witness for C9 on `"user-agent: a\nallow:"`. -/
theorem spec_c9_witness :
    (validate "user-agent: a\nallow:").errors.all
        (fun e => e.line != 2) = true ∧
      (validate "user-agent: a\nallow:").warnings.all
        (fun e => e.line != 2) = true :=
  spec_c9 "user-agent: a\nallow:" [("user-agent: a").data] ("allow:").data []
    "a" (by decide) (by decide) (by decide) (by decide) (by decide)

/-- Counterexample to C9 as stated: in
`"user-agent: a\nuser-agent:\nallow:"` a user-agent directive with the
non-empty value "a" appears on line 1, and line 3 is an allow directive
with an empty value -- yet that line does produce a finding: the
must-follow error, because the empty-valued user-agent on line 2 left
`currentUserAgent` falsy. -/
theorem spec_c9_counterexample :
    parseLine ("user-agent: a").data = LineParse.dir "user-agent" "a" ∧
      ("a" : String) ≠ "" ∧
      splitNl ("user-agent: a\nuser-agent:\nallow:").data =
        [("user-agent: a").data, ("user-agent:").data, ("allow:").data] ∧
      parseLine ("allow:").data = LineParse.dir "allow" "" ∧
      mustFollowError 3 "allow" ∈
        (validate "user-agent: a\nuser-agent:\nallow:").errors := by
  decide

/-- C10: `isValidUtf8` returns true for every input -- the encoder replaces
unpaired surrogates rather than producing invalid bytes, so the fatal
decode cannot fail -- and consequently `validate` never emits the
should-be-UTF-8 warning for any input. -/
theorem spec_c10 :
    (∀ us : List Nat, us.all (fun u => u < 0x10000) = true →
      isValidUtf8Units us = true) ∧
    (∀ s : String, utf8Warning ∉ (validate s).warnings) := by
  have h1 : ∀ us : List Nat, us.all (fun u => u < 0x10000) = true →
      isValidUtf8Units us = true := by
    intro us h
    apply isValidUtf8Units_of_bound
    intro u hu
    have := List.all_eq_true.mp h u hu
    simpa using this
  refine ⟨h1, ?_⟩
  intro s hmem
  by_cases h : trimList s.data = []
  · have hv : validate s = ⟨false, [emptyFileError], []⟩ := by
      unfold validate
      rw [if_pos (Or.inr h)]
    rw [hv] at hmem
    exact absurd hmem (List.not_mem_nil _)
  · rw [validate_warnings_eq s h, isValidUtf8Str_true s] at hmem
    rcases List.mem_append.mp hmem with h1 | h1
    · rcases List.mem_append.mp h1 with h2 | h2
      · split_ifs at h2
        · exact absurd (List.mem_singleton.mp h2) (by decide)
        · exact absurd h2 (List.not_mem_nil _)
      · rw [if_pos rfl] at h2
        exact absurd h2 (List.not_mem_nil _)
    · have := (scanLines_warns_bound _ _ _ 1 _ h1).1
      exact absurd this (by decide)

/-- Witness for C10: a lone surrogate code unit still encodes to valid
UTF-8, and a concrete validate call emits no UTF-8 warning. -/
theorem spec_c10_witness :
    ([55296] : List Nat).all (fun u => u < 0x10000) = true ∧
      isValidUtf8Units [55296] = true ∧
      utf8Warning ∉ (validate "abc").warnings :=
  ⟨by decide, spec_c10.1 [55296] (by decide), spec_c10.2 "abc"⟩

end RobotsTxt
